import Mathlib

/-!
Shallow embedding of the CHIP-8 interpreter core from `src/interpreter.rs`
(stack, timers, memory bootstrap, program load, fetch, and instruction
decoding), together with proofs about the embedded operations.

Modelling conventions:
* `u8`/`u16`/`usize` values are `Nat`; wrapping or saturating conversions are
  written out explicitly where the Rust code performs them.
* The flat `[u8; 4096]` memory is a total function `Nat → Nat`; an indexing
  panic is modelled by an explicit bounds test at the call site that performs
  the index.
* `f32` arithmetic in the timers is modelled exactly over `ℚ`, and the
  `Instant` pair `now - last_update` is modelled by an explicit `delta`
  parameter holding the elapsed seconds.
* A Rust `panic!` is modelled as `none` / `.error`.
-/

namespace Chip8

/-- Stack capacity in bytes (`STACK_SIZE`). -/
def STACK_SIZE : Nat := 48

/-- Memory capacity in bytes (`MEMORY_SIZE`). -/
def MEMORY_SIZE : Nat := 4096

/-- Base address at which programs are loaded (`PC_START_ADDRESS`). -/
def PC_START_ADDRESS : Nat := 0x200

/-- Base address of the built-in font (`FONT_START_ADDRESS`). -/
def FONT_START_ADDRESS : Nat := 0x50

/-- Screen width in pixels (`SCREEN_WIDTH`). -/
def SCREEN_WIDTH : Nat := 64

/-- Screen height in pixels (`SCREEN_HEIGHT`). -/
def SCREEN_HEIGHT : Nat := 32

/-- Timer decay frequency in Hz (`TIMER_DECREMENT_FREQUENCY`, an `f32` in the
source, modelled as a rational). -/
def TIMER_DECREMENT_FREQUENCY : ℚ := 60

/-- The built-in 16-glyph hexadecimal font table (`FONT`). -/
def FONT : List Nat :=
  [0xF0, 0x90, 0x90, 0x90, 0xF0,
   0x20, 0x60, 0x20, 0x20, 0x70,
   0xF0, 0x10, 0xF0, 0x80, 0xF0,
   0xF0, 0x10, 0xF0, 0x10, 0xF0,
   0x90, 0x90, 0xF0, 0x10, 0x10,
   0xF0, 0x80, 0xF0, 0x10, 0xF0,
   0xF0, 0x80, 0xF0, 0x90, 0xF0,
   0xF0, 0x10, 0x20, 0x40, 0x40,
   0xF0, 0x90, 0xF0, 0x90, 0xF0,
   0xF0, 0x90, 0xF0, 0x10, 0xF0,
   0xF0, 0x90, 0xF0, 0x90, 0x90,
   0xE0, 0x90, 0xE0, 0x90, 0xE0,
   0xF0, 0x80, 0x80, 0x80, 0xF0,
   0xE0, 0x90, 0x90, 0x90, 0xE0,
   0xF0, 0x80, 0xF0, 0x80, 0xF0,
   0xF0, 0x80, 0xF0, 0x80, 0x80]

/-- Single byte store into the flat memory (`self.memory[addr] = v`). -/
def memWrite (m : Nat → Nat) (addr v : Nat) : Nat → Nat :=
  fun a => if a = addr then v else m a

/-- Store a run of bytes at consecutive addresses starting at `base`.  Used for
the font copy loop in `Interpreter::new`, whose indices 0x50..0x9F are all in
bounds. -/
def writeBytes (m : Nat → Nat) (base : Nat) : List Nat → (Nat → Nat)
  | [] => m
  | b :: rest => writeBytes (memWrite m base b) (base + 1) rest

/-- The call stack (`Stack`): a 48-byte array and a cursor. -/
structure Stack where
  data : List Nat
  position : Nat

/-- `Stack::new`. -/
def Stack.new : Stack :=
  { data := List.replicate STACK_SIZE 0, position := 0 }

/-- `Stack::push`.  The result `none` models the `panic!("stack overflow")`
branch; otherwise the byte is stored at the cursor and the cursor advances. -/
def Stack.push (s : Stack) (b : Nat) : Option Stack :=
  if s.position > STACK_SIZE - 1 then
    none
  else
    some { data := s.data.set s.position b, position := s.position + 1 }

/-- `Stack::pop`: returns `none` and leaves the stack unchanged when the cursor
is at zero, otherwise retreats the cursor and returns the byte under it. -/
def Stack.pop (s : Stack) : Option Nat × Stack :=
  if s.position = 0 then
    (none, s)
  else
    (some (s.data.getD (s.position - 1) 0), { s with position := s.position - 1 })

/-- Run `push` at a call site where overflow cannot occur (as in the
repository's stack test). -/
def pushD (s : Stack) (b : Nat) : Stack :=
  match s.push b with
  | some t => t
  | none => s

/-- One stack operation, for stating the cursor invariant over arbitrary
operation sequences. -/
inductive StackOp where
  | push (b : Nat)
  | pop
  deriving DecidableEq

/-- Run a sequence of stack operations left to right; a push that panics
aborts the run with `none`. -/
def runStackOps : Stack → List StackOp → Option Stack
  | s, [] => some s
  | s, .push b :: rest =>
    match s.push b with
    | some t => runStackOps t rest
    | none => none
  | s, .pop :: rest => runStackOps (s.pop).2 rest

/-- The timers (`Timers`): two `u8` counters and the fractional carry.  The
`last_update : Instant` field is modelled by passing the elapsed seconds
`now - last_update` explicitly to `Timers.decrement_timers`. -/
structure Timers where
  delay_timer : Nat
  sound_timer : Nat
  rounding_remainder : ℚ

/-- `Timers::new`. -/
def Timers.new : Timers :=
  { delay_timer := 0, sound_timer := 0, rounding_remainder := 0 }

/-- Rust `as u8` cast applied to `amount.floor()`: an `f32`-to-`u8` cast
saturates, clamping below 0 to 0 and above 255 to 255. -/
def floorToU8 (q : ℚ) : Nat := min (Int.toNat ⌊q⌋) 255

/-- `Timers::decrement_timers`, with the elapsed seconds `delta` in place of
`Instant::now() - self.last_update` and `f32` arithmetic modelled exactly over
`ℚ`.  The final zero check `self.delay_timer + self.sound_timer == 0` is a
`u8` addition: it wraps modulo 256 here (release semantics); in a checked
build a sum above 255 panics instead, see `Timers.zeroCheckSum`. -/
def Timers.decrement_timers (t : Timers) (delta : ℚ) : Timers :=
  let amount : ℚ := TIMER_DECREMENT_FREQUENCY * delta + t.rounding_remainder
  let rem : ℚ := amount - ⌊amount⌋
  let amt : Nat := floorToU8 amount
  let d : Nat := if t.delay_timer > amt then t.delay_timer - amt else 0
  let s : Nat := if t.sound_timer > amt then t.sound_timer - amt else 0
  { delay_timer := d, sound_timer := s,
    rounding_remainder := if (d + s) % 256 = 0 then 0 else rem }

/-- The mathematical value of the `u8` sum `self.delay_timer + self.sound_timer`
computed by the zero check at the end of `Timers::decrement_timers`, before any
wrapping: a value above 255 means the `u8` addition overflows. -/
def Timers.zeroCheckSum (t : Timers) (delta : ℚ) : Nat :=
  let amount : ℚ := TIMER_DECREMENT_FREQUENCY * delta + t.rounding_remainder
  let amt : Nat := floorToU8 amount
  (if t.delay_timer > amt then t.delay_timer - amt else 0) +
    (if t.sound_timer > amt then t.sound_timer - amt else 0)

/-- The decoded instruction (`Instruction`). -/
inductive Instruction where
  | NotImplemented
  | ClearScreen
  | Jump (addr : Nat)
  | SetRegister (reg : Nat) (value : Nat)
  | AddToRegister (reg : Nat) (value : Nat)
  | SetI (value : Nat)
  | DrawSprite (x : Nat) (y : Nat) (height : Nat)
  deriving DecidableEq

/-- `Instruction::nibble_left`: isolate the nibble at the given 0-indexed
position from the most significant end.  The `assert!(position < 4)` holds at
every call site in `Instruction::from_raw` (positions 0 to 3), and the final
`as u8` cast is the identity on a value of at most 0xF. -/
def Instruction.nibble_left (bytes position : Nat) : Nat :=
  (bytes &&& (0xF000 >>> (position * 4))) >>> (12 - position * 4)

/-- `Instruction::from_raw`: decode a raw 16-bit word by its top nibble. -/
def Instruction.from_raw (bytes : Nat) : Instruction :=
  match Instruction.nibble_left bytes 0 with
  | 0 => if bytes = 0x00E0 then .ClearScreen else .NotImplemented
  | 1 => .Jump (bytes &&& 0x0FFF)
  | 6 => .SetRegister (Instruction.nibble_left bytes 1) (bytes &&& 0x00FF)
  | 7 => .AddToRegister (Instruction.nibble_left bytes 1) (bytes &&& 0x00FF)
  | 0xA => .SetI (bytes &&& 0x0FFF)
  | 0xD => .DrawSprite (Instruction.nibble_left bytes 1)
      (Instruction.nibble_left bytes 2) (Instruction.nibble_left bytes 3)
  | _ => .NotImplemented

/-- The interpreter state (`Interpreter`). -/
structure Interpreter where
  pc : Nat
  i : Nat
  stack : Stack
  memory : Nat → Nat
  registers : List Nat
  timers : Timers
  screen_buffer : List Nat

/-- `Interpreter::new`: zeroed memory with the font copied in at 0x50, the
program counter at 0x200, and everything else zeroed. -/
def Interpreter.new : Interpreter :=
  { pc := PC_START_ADDRESS
    i := 0
    stack := Stack.new
    memory := writeBytes (fun _ => 0) FONT_START_ADDRESS FONT
    registers := List.replicate 16 0
    timers := Timers.new
    screen_buffer := List.replicate (SCREEN_WIDTH * SCREEN_HEIGHT) 0 }

/-- Loop body of `Interpreter::load_program`: write byte `i` of the slice to
`PC_START_ADDRESS + i`.  The source performs no bounds check; the first write
past the end of the 4096-byte array panics, and the `.error` value records the
memory contents at the moment that panic is raised (the in-bounds prefix has
already been written). -/
def loadBytes (m : Nat → Nat) (i : Nat) : List Nat → Except (Nat → Nat) (Nat → Nat)
  | [] => .ok m
  | b :: rest =>
    if PC_START_ADDRESS + i < MEMORY_SIZE then
      loadBytes (memWrite m (PC_START_ADDRESS + i) b) (i + 1) rest
    else
      .error m

/-- `Interpreter::load_program`: copy the slice into memory starting at
`PC_START_ADDRESS`. -/
def Interpreter.load_program (it : Interpreter) (bytes : List Nat) :
    Except (Nat → Nat) Interpreter :=
  match loadBytes it.memory 0 bytes with
  | .ok m => .ok { it with memory := m }
  | .error m => .error m

/-- `Interpreter::fetch_instruction`: combine the two bytes at `pc` big-endian
and advance `pc` by 2.  The source indexes `memory[pc]` and `memory[pc + 1]`
without a bounds check; `none` models the indexing panic when `pc + 1` is out
of bounds. -/
def Interpreter.fetch_instruction (it : Interpreter) : Option (Nat × Interpreter) :=
  if it.pc + 1 < MEMORY_SIZE then
    some ((it.memory it.pc <<< 8) ||| it.memory (it.pc + 1), { it with pc := it.pc + 2 })
  else
    none

/-- Fetch `n` successive instruction words, collecting them in order. -/
def fetchWords : Nat → Interpreter → List Nat
  | 0, _ => []
  | n + 1, it =>
    match it.fetch_instruction with
    | some p => p.1 :: fetchWords n p.2
    | none => []

/-- The ten-byte program used by the repository's `load_program` and
`fetch_instruction` tests. -/
def exampleProgram : List Nat := [0, 1, 2, 3, 4, 5, 6, 7, 8, 9]

/-- A fresh interpreter with `exampleProgram` loaded (the load succeeds, so the
fallback branch is never taken). -/
def exampleInterp : Interpreter :=
  match Interpreter.new.load_program exampleProgram with
  | .ok it => it
  | .error _ => Interpreter.new


/-! ### Bit-manipulation bridge lemmas

These connect the source's mask-and-shift operations to quotient/remainder
arithmetic, which is the language the specification uses ("low 12 bits",
"2nd nibble", "low byte"). -/

/-- Masking with a nibble mask `15 <<< k` and shifting right by `k` extracts
the nibble `w / 2 ^ k % 16`. -/
theorem land_mask_shiftRight (w k : Nat) :
    (w &&& (15 <<< k)) >>> k = w / 2 ^ k % 16 := by
  apply Nat.eq_of_testBit_eq
  intro i
  have h16 : (16 : Nat) = 2 ^ 4 := by norm_num
  have h15 : (15 : Nat) = 2 ^ 4 - 1 := by norm_num
  rw [h16, h15, ← Nat.shiftRight_eq_div_pow, Nat.testBit_shiftRight,
    Nat.testBit_and, Nat.testBit_shiftLeft, Nat.testBit_mod_two_pow,
    Nat.testBit_shiftRight, Nat.testBit_two_pow_sub_one]
  have hsub : k + i - k = i := by omega
  have hge : k + i ≥ k := Nat.le_add_right k i
  rw [hsub]
  simp [hge, Bool.and_comm]

/-- Masking with `0x0FFF` keeps the low 12 bits. -/
theorem land_4095 (w : Nat) : w &&& 4095 = w % 4096 := by
  have h := Nat.and_pow_two_sub_one_eq_mod w 12
  norm_num at h
  exact h

/-- Masking with `0x00FF` keeps the low byte. -/
theorem land_255 (w : Nat) : w &&& 255 = w % 256 := by
  have h := Nat.and_pow_two_sub_one_eq_mod w 8
  norm_num at h
  exact h

/-- `nibble_left` at position 0 is the top nibble. -/
theorem nibble_left_zero (w : Nat) : Instruction.nibble_left w 0 = w / 4096 % 16 := by
  have h := land_mask_shiftRight w 12
  simp only [Nat.shiftLeft_eq] at h
  norm_num at h
  exact h

/-- `nibble_left` at position 1 is the second nibble from the top. -/
theorem nibble_left_one (w : Nat) : Instruction.nibble_left w 1 = w / 256 % 16 := by
  have h := land_mask_shiftRight w 8
  simp only [Nat.shiftLeft_eq] at h
  norm_num at h
  exact h

/-- `nibble_left` at position 2 is the third nibble from the top. -/
theorem nibble_left_two (w : Nat) : Instruction.nibble_left w 2 = w / 16 % 16 := by
  have h := land_mask_shiftRight w 4
  simp only [Nat.shiftLeft_eq] at h
  norm_num at h
  exact h

/-- `nibble_left` at position 3 is the low nibble. -/
theorem nibble_left_three (w : Nat) : Instruction.nibble_left w 3 = w % 16 := by
  have h := land_mask_shiftRight w 0
  simp only [Nat.shiftLeft_eq] at h
  norm_num at h
  exact h

/-- Combining a high byte shifted left by 8 with a low byte below 256 by
bitwise or is exactly big-endian arithmetic combination. -/
theorem shiftLeft_lor_byte (a b : Nat) (hb : b < 256) :
    (a <<< 8) ||| b = 256 * a + b := by
  apply Nat.eq_of_testBit_eq
  intro i
  rw [Nat.testBit_or, Nat.testBit_shiftLeft]
  have hmod : (256 * a + b) % 2 ^ 8 = b := by
    have h1 : (256 * a + b) % 256 = b := by
      rw [Nat.mul_add_mod, Nat.mod_eq_of_lt hb]
    norm_num [h1]
  have hdiv : (256 * a + b) >>> 8 = a := by
    rw [Nat.shiftRight_eq_div_pow]
    norm_num
    omega
  rcases Nat.lt_or_ge i 8 with h | h
  · have h1 := Nat.testBit_mod_two_pow (256 * a + b) 8 i
    rw [hmod, decide_eq_true h, Bool.true_and] at h1
    rw [← h1]
    have hd : decide (i ≥ 8) = false := by
      simp only [decide_eq_false_iff_not]
      omega
    rw [hd, Bool.false_and, Bool.false_or]
  · have h1 := Nat.testBit_shiftRight (x := 256 * a + b) (i := 8) (j := i - 8)
    rw [hdiv] at h1
    have h2 : 8 + (i - 8) = i := by omega
    rw [h2] at h1
    rw [← h1]
    have hbf : b.testBit i = false := by
      apply Nat.testBit_lt_two_pow
      calc b < 256 := hb
        _ = 2 ^ 8 := by norm_num
        _ ≤ 2 ^ i := Nat.pow_le_pow_right (by norm_num) h
    have hd : decide (i ≥ 8) = true := decide_eq_true h
    rw [hd, Bool.true_and, hbf, Bool.or_false]

/-! ### C1: instruction decoding -/

/-- C1: `Instruction.from_raw` is a pure total function on every 16-bit word:
it maps 0x00E0 to `ClearScreen`; a word with top nibble 0x1 to `Jump` of its
low 12 bits; top nibble 0x6 to `SetRegister` of its 2nd nibble and low byte;
top nibble 0x7 to `AddToRegister` of its 2nd nibble and low byte; top nibble
0xA to `SetI` of its low 12 bits; top nibble 0xD to `DrawSprite` of its 2nd,
3rd and 4th nibbles; and every other word — including every 0x0-prefixed word
other than 0x00E0 — to the explicit `NotImplemented` variant. -/
theorem from_raw_decodes (w : Nat) (hw : w < 65536) :
    Instruction.from_raw w =
      if w = 0x00E0 then .ClearScreen
      else if w / 4096 = 0x1 then .Jump (w % 4096)
      else if w / 4096 = 0x6 then .SetRegister (w / 256 % 16) (w % 256)
      else if w / 4096 = 0x7 then .AddToRegister (w / 256 % 16) (w % 256)
      else if w / 4096 = 0xA then .SetI (w % 4096)
      else if w / 4096 = 0xD then .DrawSprite (w / 256 % 16) (w / 16 % 16) (w % 16)
      else .NotImplemented := by
  have h0 : Instruction.nibble_left w 0 = w / 4096 := by
    rw [nibble_left_zero, Nat.mod_eq_of_lt (by omega)]
  unfold Instruction.from_raw
  rw [h0]
  split
  · rename_i heq
    by_cases he : w = 0x00E0
    · rw [if_pos he, if_pos he]
    · simp [he, heq]
  · rename_i heq
    simp [heq, land_4095, show w ≠ 224 from by omega]
  · rename_i heq
    simp [heq, land_255, nibble_left_one, show w ≠ 224 from by omega]
  · rename_i heq
    simp [heq, land_255, nibble_left_one, show w ≠ 224 from by omega]
  · rename_i heq
    simp [heq, land_4095, show w ≠ 224 from by omega]
  · rename_i heq
    simp [heq, nibble_left_one, nibble_left_two, nibble_left_three,
      show w ≠ 224 from by omega]
  · rename_i x h00 h01 h06 h07 h0A h0D
    have hne : w ≠ 224 := fun he => h00 (by omega)
    rw [if_neg hne, if_neg h01, if_neg h06, if_neg h07, if_neg h0A, if_neg h0D]

/-- Witness for C1 at the word 0xD123. -/
theorem from_raw_decodes_witness :
    0xD123 < 65536 ∧ Instruction.from_raw 0xD123 = .DrawSprite 1 2 3 :=
  ⟨by decide, by rw [from_raw_decodes 0xD123 (by decide)]; decide⟩

/-! ### C2: instruction fetch -/

/-- C2: on any state whose program counter satisfies `pc + 1 < 4096` (and whose
two bytes at `pc` are in byte range, as the `u8` memory guarantees),
`fetch_instruction` returns the big-endian combination of the bytes at `pc` and
`pc + 1` — `memory[pc]` as the high byte — and advances `pc` by exactly 2; in
particular five successive fetches on a fresh interpreter loaded with bytes
0..9 return 0x0001, 0x0203, 0x0405, 0x0607, 0x0809. -/
theorem fetch_instruction_spec :
    (∀ it : Interpreter, it.pc + 1 < MEMORY_SIZE →
      it.memory it.pc < 256 → it.memory (it.pc + 1) < 256 →
      it.fetch_instruction =
        some (256 * it.memory it.pc + it.memory (it.pc + 1),
          { it with pc := it.pc + 2 })) ∧
    fetchWords 5 exampleInterp = [0x0001, 0x0203, 0x0405, 0x0607, 0x0809] := by
  constructor
  · intro it hpc h1 h2
    unfold Interpreter.fetch_instruction
    rw [if_pos hpc, shiftLeft_lor_byte _ _ h2]
  · decide

/-- Witness for C2 on the freshly loaded example interpreter. -/
theorem fetch_instruction_spec_witness :
    exampleInterp.pc + 1 < MEMORY_SIZE ∧
      exampleInterp.fetch_instruction =
        some (256 * exampleInterp.memory exampleInterp.pc +
            exampleInterp.memory (exampleInterp.pc + 1),
          { exampleInterp with pc := exampleInterp.pc + 2 }) :=
  ⟨by decide, fetch_instruction_spec.1 exampleInterp (by decide) (by decide) (by decide)⟩


/-! ### Program loading: C3 and C4 -/

/-- Writing a byte at an address reads back as that byte. -/
theorem memWrite_self (m : Nat → Nat) (addr v : Nat) : memWrite m addr v addr = v := by
  simp [memWrite]

/-- Writing a byte at an address leaves every other address unchanged. -/
theorem memWrite_ne (m : Nat → Nat) (addr v a : Nat) (h : a ≠ addr) :
    memWrite m addr v a = m a := by
  simp [memWrite, h]

/-- Every in-range element of a replicated list is the replicated value. -/
theorem getD_replicate_of_lt (x d : Nat) :
    ∀ (n k : Nat), k < n → (List.replicate n x).getD k d = x := by
  intro n
  induction n with
  | zero =>
    intro k hk
    omega
  | succ n2 ih =>
    intro k hk
    rw [List.replicate_succ]
    cases k with
    | zero => rw [List.getD_cons_zero]
    | succ k2 =>
      rw [List.getD_cons_succ]
      exact ih k2 (by omega)

/-- When the whole slice fits under `MEMORY_SIZE`, `loadBytes` succeeds, the
loaded region holds the slice and lower addresses are untouched. -/
theorem loadBytes_ok (bytes : List Nat) :
    ∀ (i : Nat) (m : Nat → Nat), PC_START_ADDRESS + i + bytes.length ≤ MEMORY_SIZE →
      ∃ m2, loadBytes m i bytes = .ok m2 ∧
        (∀ k, k < bytes.length → m2 (PC_START_ADDRESS + i + k) = bytes.getD k 0) ∧
        (∀ a, a < PC_START_ADDRESS + i → m2 a = m a) := by
  induction bytes with
  | nil =>
    intro i m _
    exact ⟨m, rfl, by simp, fun a _ => rfl⟩
  | cons b rest ih =>
    intro i m h
    rw [List.length_cons] at h
    have hin : PC_START_ADDRESS + i < MEMORY_SIZE := by omega
    obtain ⟨m2, hok, hvals, hlow⟩ :=
      ih (i + 1) (memWrite m (PC_START_ADDRESS + i) b) (by omega)
    refine ⟨m2, ?_, ?_, ?_⟩
    · rw [loadBytes, if_pos hin]
      exact hok
    · intro k hk
      cases k with
      | zero =>
        rw [Nat.add_zero, hlow (PC_START_ADDRESS + i) (by omega), memWrite_self]
        simp
      | succ k2 =>
        rw [List.length_cons] at hk
        have hv := hvals k2 (by omega)
        rw [show PC_START_ADDRESS + i + (k2 + 1) = PC_START_ADDRESS + (i + 1) + k2 by omega,
          hv]
        simp
    · intro a ha
      rw [hlow a (by omega), memWrite_ne _ _ _ _ (by omega)]

/-- When the slice overruns `MEMORY_SIZE`, `loadBytes` raises the error, but
only after writing the in-bounds prefix; lower addresses stay untouched. -/
theorem loadBytes_error (bytes : List Nat) :
    ∀ (i : Nat) (m : Nat → Nat), MEMORY_SIZE < PC_START_ADDRESS + i + bytes.length →
      PC_START_ADDRESS + i ≤ MEMORY_SIZE →
      ∃ m2, loadBytes m i bytes = .error m2 ∧
        (∀ k, k < bytes.length → PC_START_ADDRESS + i + k < MEMORY_SIZE →
          m2 (PC_START_ADDRESS + i + k) = bytes.getD k 0) ∧
        (∀ a, a < PC_START_ADDRESS + i → m2 a = m a) := by
  induction bytes with
  | nil =>
    intro i m hover hle
    rw [List.length_nil] at hover
    omega
  | cons b rest ih =>
    intro i m hover hle
    rw [List.length_cons] at hover
    by_cases hin : PC_START_ADDRESS + i < MEMORY_SIZE
    · obtain ⟨m2, herr, hvals, hlow⟩ :=
        ih (i + 1) (memWrite m (PC_START_ADDRESS + i) b) (by omega) (by omega)
      refine ⟨m2, ?_, ?_, ?_⟩
      · rw [loadBytes, if_pos hin]
        exact herr
      · intro k hk hbound
        cases k with
        | zero =>
          rw [Nat.add_zero, hlow (PC_START_ADDRESS + i) (by omega), memWrite_self]
          simp
        | succ k2 =>
          rw [List.length_cons] at hk
          have hv := hvals k2 (by omega) (by omega)
          rw [show PC_START_ADDRESS + i + (k2 + 1) = PC_START_ADDRESS + (i + 1) + k2 by omega,
            hv]
          simp
      · intro a ha
        rw [hlow a (by omega), memWrite_ne _ _ _ _ (by omega)]
    · refine ⟨m, ?_, ?_, fun a _ => rfl⟩
      · rw [loadBytes, if_neg hin]
      · intro k _ hbound
        omega

/-- C3: for every ROM whose length is at most `MEMORY_SIZE - PC_START_ADDRESS`,
loading it into a freshly constructed interpreter succeeds and reading memory
at `[0x200, 0x200 + len)` reproduces the ROM bytes exactly, in order. -/
theorem load_program_roundtrip (rom : List Nat)
    (hlen : rom.length ≤ MEMORY_SIZE - PC_START_ADDRESS)
    (_hbytes : ∀ b ∈ rom, b < 256) :
    ∃ it : Interpreter, Interpreter.new.load_program rom = .ok it ∧
      ∀ k, k < rom.length → it.memory (PC_START_ADDRESS + k) = rom.getD k 0 := by
  have hfit : PC_START_ADDRESS + 0 + rom.length ≤ MEMORY_SIZE := by
    simp only [MEMORY_SIZE, PC_START_ADDRESS] at hlen ⊢
    omega
  obtain ⟨m2, hok, hvals, _⟩ := loadBytes_ok rom 0 Interpreter.new.memory hfit
  refine ⟨{ Interpreter.new with memory := m2 }, ?_, ?_⟩
  · rw [Interpreter.load_program, hok]
  · intro k hk
    have hv := hvals k hk
    rw [Nat.add_zero] at hv
    exact hv

/-- Witness for C3 on the repository's ten-byte test program. -/
theorem load_program_roundtrip_witness :
    exampleProgram.length ≤ MEMORY_SIZE - PC_START_ADDRESS ∧
      ∃ it : Interpreter, Interpreter.new.load_program exampleProgram = .ok it ∧
        ∀ k, k < exampleProgram.length →
          it.memory (PC_START_ADDRESS + k) = exampleProgram.getD k 0 :=
  ⟨by decide, load_program_roundtrip exampleProgram (by decide) (by decide)⟩

/-- C4 counterexample: loading 3585 bytes of value 1 into a fresh interpreter
overruns memory and raises the error, but the memory accompanying the error
already differs from the pre-call memory at address 0x200 — the load is not
aborted before any mutation. -/
theorem load_program_overflow_mutates :
    ∃ m : Nat → Nat,
      Interpreter.new.load_program (List.replicate 3585 1) = .error m ∧
        m PC_START_ADDRESS ≠ Interpreter.new.memory PC_START_ADDRESS := by
  have hlen : (List.replicate 3585 (1 : Nat)).length = 3585 := List.length_replicate 3585 1
  obtain ⟨m2, herr, hvals, _⟩ :=
    loadBytes_error (List.replicate 3585 1) 0 Interpreter.new.memory
      (by rw [hlen]; norm_num [MEMORY_SIZE, PC_START_ADDRESS])
      (by norm_num [MEMORY_SIZE, PC_START_ADDRESS])
  refine ⟨m2, ?_, ?_⟩
  · rw [Interpreter.load_program, herr]
  · have hv := hvals 0 (by rw [hlen]; omega)
      (by norm_num [MEMORY_SIZE, PC_START_ADDRESS])
    simp only [Nat.add_zero] at hv
    rw [hv, getD_replicate_of_lt 1 0 3585 0 (by omega)]
    have hmem : Interpreter.new.memory PC_START_ADDRESS = 0 := by decide
    rw [hmem]
    omega

/-- C4 (amended): for every ROM whose length plus the base address 0x200
exceeds 4096, `load_program` raises the out-of-bounds panic — it is not a
silent truncation — but the abort happens only at the first out-of-range
write: when the error is raised the in-bounds prefix (addresses 0x200..0xFFF)
has already been overwritten with the ROM's leading bytes, so memory is not
left unchanged; addresses below the program base are untouched. -/
theorem load_program_overflow_spec (it : Interpreter) (rom : List Nat)
    (hover : MEMORY_SIZE < PC_START_ADDRESS + rom.length) :
    ∃ m : Nat → Nat, it.load_program rom = .error m ∧
      (∀ k, k < rom.length → PC_START_ADDRESS + k < MEMORY_SIZE →
        m (PC_START_ADDRESS + k) = rom.getD k 0) ∧
      (∀ a, a < PC_START_ADDRESS → m a = it.memory a) := by
  obtain ⟨m2, herr, hvals, hlow⟩ :=
    loadBytes_error rom 0 it.memory (by omega)
      (by norm_num [MEMORY_SIZE, PC_START_ADDRESS])
  refine ⟨m2, ?_, ?_, ?_⟩
  · rw [Interpreter.load_program, herr]
  · intro k hk hb
    have hv := hvals k hk (by omega)
    rw [Nat.add_zero] at hv
    exact hv
  · intro a ha
    exact hlow a (by omega)

/-- Witness for the amended C4 on a 3585-byte ROM. -/
theorem load_program_overflow_spec_witness :
    MEMORY_SIZE < PC_START_ADDRESS + (List.replicate 3585 1).length ∧
      ∃ m : Nat → Nat,
        Interpreter.new.load_program (List.replicate 3585 1) = .error m ∧
          (∀ k, k < (List.replicate 3585 1).length →
            PC_START_ADDRESS + k < MEMORY_SIZE →
            m (PC_START_ADDRESS + k) = (List.replicate 3585 1).getD k 0) ∧
          (∀ a, a < PC_START_ADDRESS → m a = Interpreter.new.memory a) :=
  ⟨by simp only [List.length_replicate]; decide,
    load_program_overflow_spec Interpreter.new (List.replicate 3585 1)
      (by simp only [List.length_replicate]; decide)⟩


/-! ### The stack: C8 and C9 -/

/-- Reading an in-range index just after setting it yields the written value. -/
theorem set_getD_self (l : List Nat) (i b : Nat) (h : i < l.length) :
    (l.set i b).getD i 0 = b := by
  rw [List.getD_eq_getElem?_getD, List.getElem?_set_self]
  · simp
  · omega

/-- C8: the stack is strictly last-in-first-out.  On an empty stack, pushing
10 then 20 and popping yields `some 20`; then pushing 30 and popping twice
yields `some 30` then `some 10`; a further pop on the now-empty stack yields
`none`.  In general, on any stack state with room, popping right after
`push b` returns `some b` and restores the prior cursor. -/
theorem stack_lifo :
    ((pushD (pushD Stack.new 10) 20).pop.1 = some 20 ∧
      (pushD (pushD (pushD Stack.new 10) 20).pop.2 30).pop.1 = some 30 ∧
      (pushD (pushD (pushD Stack.new 10) 20).pop.2 30).pop.2.pop.1 = some 10 ∧
      (pushD (pushD (pushD Stack.new 10) 20).pop.2 30).pop.2.pop.2.pop.1 = none) ∧
    ∀ (s : Stack) (b : Nat), s.data.length = STACK_SIZE → s.position < STACK_SIZE →
      ∃ s2, s.push b = some s2 ∧ s2.pop.1 = some b ∧ s2.pop.2.position = s.position := by
  refine ⟨⟨by decide, by decide, by decide, by decide⟩, ?_⟩
  intro s b hdata hpos
  have hnover : ¬ s.position > STACK_SIZE - 1 := by
    simp only [STACK_SIZE] at hpos ⊢
    omega
  refine ⟨{ data := s.data.set s.position b, position := s.position + 1 }, ?_, ?_, ?_⟩
  · rw [Stack.push, if_neg hnover]
  · rw [Stack.pop]
    simp only [if_neg (Nat.succ_ne_zero s.position), Nat.add_sub_cancel]
    rw [set_getD_self s.data s.position b (by omega)]
  · rw [Stack.pop]
    simp only [if_neg (Nat.succ_ne_zero s.position), Nat.add_sub_cancel]

/-- Witness for C8's general round trip on a fresh stack. -/
theorem stack_lifo_witness :
    Stack.new.data.length = STACK_SIZE ∧ Stack.new.position < STACK_SIZE ∧
      ∃ s2, Stack.new.push 77 = some s2 ∧ s2.pop.1 = some 77 ∧
        s2.pop.2.position = Stack.new.position :=
  ⟨by decide, by decide, stack_lifo.2 Stack.new 77 (by decide) (by decide)⟩

/-- Starting at or below capacity, any sequence of stack operations that
completes without the overflow panic keeps the cursor at or below capacity. -/
theorem runStackOps_position_le (ops : List StackOp) :
    ∀ s : Stack, s.position ≤ STACK_SIZE →
      ∀ s2, runStackOps s ops = some s2 → s2.position ≤ STACK_SIZE := by
  induction ops with
  | nil =>
    intro s hs s2 h
    rw [runStackOps] at h
    cases h
    exact hs
  | cons op rest ih =>
    intro s hs s2 h
    cases op with
    | push b =>
      rw [runStackOps] at h
      cases hp : s.push b with
      | none =>
        rw [hp] at h
        cases h
      | some t =>
        rw [hp] at h
        have ht : t.position ≤ STACK_SIZE := by
          rw [Stack.push] at hp
          by_cases hc : s.position > STACK_SIZE - 1
          · rw [if_pos hc] at hp
            cases hp
          · rw [if_neg hc] at hp
            cases hp
            simp only [STACK_SIZE] at hc ⊢
            omega
        exact ih t ht s2 h
    | pop =>
      rw [runStackOps] at h
      have hq : (s.pop).2.position ≤ STACK_SIZE := by
        rw [Stack.pop]
        by_cases hc : s.position = 0
        · rw [if_pos hc]
          exact hs
        · rw [if_neg hc]
          show s.position - 1 ≤ STACK_SIZE
          omega
      exact ih _ hq s2 h

/-- C9: `push` panics with the stack-overflow condition exactly when the cursor
has reached the capacity, and otherwise stores the byte at the cursor and
advances the cursor by one; consequently the cursor never exceeds the capacity
under any sequence of pushes and pops from a fresh stack, and `pop` on an
empty stack yields the explicit no-value result. -/
theorem stack_push_contract :
    (∀ (s : Stack) (b : Nat), s.push b = none ↔ STACK_SIZE ≤ s.position) ∧
    (∀ (s : Stack) (b : Nat), s.position < STACK_SIZE →
      s.push b = some { data := s.data.set s.position b, position := s.position + 1 }) ∧
    (∀ (ops : List StackOp) (s2 : Stack), runStackOps Stack.new ops = some s2 →
      s2.position ≤ STACK_SIZE) ∧
    (∀ s : Stack, s.position = 0 → s.pop = (none, s)) := by
  refine ⟨?_, ?_, ?_, ?_⟩
  · intro s b
    constructor
    · intro h
      rw [Stack.push] at h
      by_cases hc : s.position > STACK_SIZE - 1
      · simp only [STACK_SIZE] at hc ⊢
        omega
      · rw [if_neg hc] at h
        cases h
    · intro h
      rw [Stack.push, if_pos (by simp only [STACK_SIZE] at h ⊢; omega)]
  · intro s b h
    rw [Stack.push, if_neg (by simp only [STACK_SIZE] at h ⊢; omega)]
  · intro ops s2 h
    exact runStackOps_position_le ops Stack.new (by decide) s2 h
  · intro s h
    rw [Stack.pop, if_pos h]

/-- Witness for C9: a full stack rejects a push, a fresh stack accepts one. -/
theorem stack_push_contract_witness :
    STACK_SIZE ≤ (48 : Nat) ∧
      Stack.push { data := List.replicate 48 0, position := 48 } 5 = none ∧
      Stack.new.position < STACK_SIZE ∧
      Stack.new.push 7 =
        some { data := Stack.new.data.set Stack.new.position 7,
               position := Stack.new.position + 1 } :=
  ⟨by decide,
    (stack_push_contract.1 { data := List.replicate 48 0, position := 48 } 5).mpr (by decide),
    by decide,
    stack_push_contract.2.1 Stack.new 7 (by decide)⟩


/-! ### The timers: C5, C6, C7, C10 -/

/-- The new delay timer is the old one minus the floored amount, truncated at
zero (the saturation of the `as u8` cast at 255 is absorbed because a `u8`
timer is at most 255). -/
theorem decrement_timers_delay (t : Timers) (delta : ℚ) (hd : t.delay_timer ≤ 255) :
    (t.decrement_timers delta).delay_timer =
      t.delay_timer -
        Int.toNat ⌊TIMER_DECREMENT_FREQUENCY * delta + t.rounding_remainder⌋ := by
  rw [Timers.decrement_timers]
  set n := Int.toNat ⌊TIMER_DECREMENT_FREQUENCY * delta + t.rounding_remainder⌋ with hn
  show (if t.delay_timer > min n 255 then t.delay_timer - min n 255 else 0)
    = t.delay_timer - n
  split <;> omega

/-- The new sound timer is the old one minus the floored amount, truncated at
zero. -/
theorem decrement_timers_sound (t : Timers) (delta : ℚ) (hs : t.sound_timer ≤ 255) :
    (t.decrement_timers delta).sound_timer =
      t.sound_timer -
        Int.toNat ⌊TIMER_DECREMENT_FREQUENCY * delta + t.rounding_remainder⌋ := by
  rw [Timers.decrement_timers]
  set n := Int.toNat ⌊TIMER_DECREMENT_FREQUENCY * delta + t.rounding_remainder⌋ with hn
  show (if t.sound_timer > min n 255 then t.sound_timer - min n 255 else 0)
    = t.sound_timer - n
  split <;> omega

/-- The stored carry after a call is the fractional part of the amount, except
that it is cleared when the wrapped `u8` sum of the new timers is zero. -/
theorem decrement_timers_remainder (t : Timers) (delta : ℚ) :
    (t.decrement_timers delta).rounding_remainder =
      if ((t.decrement_timers delta).delay_timer +
          (t.decrement_timers delta).sound_timer) % 256 = 0
      then 0
      else Int.fract (TIMER_DECREMENT_FREQUENCY * delta + t.rounding_remainder) := by
  rw [Timers.decrement_timers, Int.fract]

/-- C5 (amended): for 8-bit timer values, a carried fraction in [0, 1) and a
nonnegative elapsed time, `decrement_timers` computes
`amount = 60 * elapsed + carry`, subtracts the floor of `amount` from each
timer independently, truncating each at zero so that neither timer underflows
or increases, and carries the fractional remainder of `amount` to the next
call — except that the carry is reset to zero whenever the wrapping 8-bit sum
of the two post-subtraction timers is zero, in particular whenever both
timers are zero.  The stored carry always lands back in [0, 1). -/
theorem decrement_timers_spec (t : Timers) (delta : ℚ)
    (hd : t.delay_timer ≤ 255) (hs : t.sound_timer ≤ 255) (_hdel : 0 ≤ delta)
    (_hr0 : 0 ≤ t.rounding_remainder) (_hr1 : t.rounding_remainder < 1) :
    (t.decrement_timers delta).delay_timer =
        t.delay_timer -
          Int.toNat ⌊TIMER_DECREMENT_FREQUENCY * delta + t.rounding_remainder⌋ ∧
    (t.decrement_timers delta).sound_timer =
        t.sound_timer -
          Int.toNat ⌊TIMER_DECREMENT_FREQUENCY * delta + t.rounding_remainder⌋ ∧
    (t.decrement_timers delta).delay_timer ≤ t.delay_timer ∧
    (t.decrement_timers delta).sound_timer ≤ t.sound_timer ∧
    (t.decrement_timers delta).rounding_remainder =
      (if ((t.decrement_timers delta).delay_timer +
            (t.decrement_timers delta).sound_timer) % 256 = 0
        then 0
        else Int.fract (TIMER_DECREMENT_FREQUENCY * delta + t.rounding_remainder)) ∧
    0 ≤ (t.decrement_timers delta).rounding_remainder ∧
    (t.decrement_timers delta).rounding_remainder < 1 := by
  refine ⟨decrement_timers_delay t delta hd, decrement_timers_sound t delta hs,
    ?_, ?_, decrement_timers_remainder t delta, ?_, ?_⟩
  · rw [decrement_timers_delay t delta hd]
    omega
  · rw [decrement_timers_sound t delta hs]
    omega
  · rw [decrement_timers_remainder t delta]
    split
    · exact le_refl 0
    · exact Int.fract_nonneg _
  · rw [decrement_timers_remainder t delta]
    split
    · exact zero_lt_one
    · exact Int.fract_lt_one _

/-- Witness for C5 with delay 90, sound 30, no carry, one elapsed second. -/
theorem decrement_timers_spec_witness :
    ({ delay_timer := 90, sound_timer := 30, rounding_remainder := 0 } : Timers).delay_timer ≤ 255 ∧
    ((Timers.decrement_timers { delay_timer := 90, sound_timer := 30, rounding_remainder := 0 } 1).delay_timer =
        ({ delay_timer := 90, sound_timer := 30, rounding_remainder := 0 } : Timers).delay_timer -
          Int.toNat ⌊TIMER_DECREMENT_FREQUENCY * 1 +
            ({ delay_timer := 90, sound_timer := 30, rounding_remainder := 0 } : Timers).rounding_remainder⌋ ∧
      (Timers.decrement_timers { delay_timer := 90, sound_timer := 30, rounding_remainder := 0 } 1).sound_timer =
        ({ delay_timer := 90, sound_timer := 30, rounding_remainder := 0 } : Timers).sound_timer -
          Int.toNat ⌊TIMER_DECREMENT_FREQUENCY * 1 +
            ({ delay_timer := 90, sound_timer := 30, rounding_remainder := 0 } : Timers).rounding_remainder⌋ ∧
      (Timers.decrement_timers { delay_timer := 90, sound_timer := 30, rounding_remainder := 0 } 1).delay_timer ≤
        ({ delay_timer := 90, sound_timer := 30, rounding_remainder := 0 } : Timers).delay_timer ∧
      (Timers.decrement_timers { delay_timer := 90, sound_timer := 30, rounding_remainder := 0 } 1).sound_timer ≤
        ({ delay_timer := 90, sound_timer := 30, rounding_remainder := 0 } : Timers).sound_timer ∧
      (Timers.decrement_timers { delay_timer := 90, sound_timer := 30, rounding_remainder := 0 } 1).rounding_remainder =
        (if ((Timers.decrement_timers { delay_timer := 90, sound_timer := 30, rounding_remainder := 0 } 1).delay_timer +
              (Timers.decrement_timers { delay_timer := 90, sound_timer := 30, rounding_remainder := 0 } 1).sound_timer) % 256 = 0
          then 0
          else Int.fract (TIMER_DECREMENT_FREQUENCY * 1 +
            ({ delay_timer := 90, sound_timer := 30, rounding_remainder := 0 } : Timers).rounding_remainder)) ∧
      0 ≤ (Timers.decrement_timers { delay_timer := 90, sound_timer := 30, rounding_remainder := 0 } 1).rounding_remainder ∧
      (Timers.decrement_timers { delay_timer := 90, sound_timer := 30, rounding_remainder := 0 } 1).rounding_remainder < 1) :=
  ⟨by decide,
    decrement_timers_spec { delay_timer := 90, sound_timer := 30, rounding_remainder := 0 } 1
      (by decide) (by decide) zero_le_one (le_refl 0) zero_lt_one⟩

/-- C5 counterexample: with both timers zero, a carried fraction of 1/2 and
zero elapsed time, the fractional remainder of the amount is 1/2 but the
stored carry is reset to 0, so the carry is not always the fractional
remainder of the amount. -/
theorem decrement_timers_carry_reset_cex :
    (Timers.decrement_timers
        { delay_timer := 0, sound_timer := 0, rounding_remainder := 1/2 } 0).rounding_remainder = 0 ∧
      Int.fract (TIMER_DECREMENT_FREQUENCY * 0 +
        ({ delay_timer := 0, sound_timer := 0, rounding_remainder := 1/2 } : Timers).rounding_remainder) ≠ 0 := by
  constructor
  · have hdz : (Timers.decrement_timers
        { delay_timer := 0, sound_timer := 0, rounding_remainder := 1/2 } 0).delay_timer = 0 := by
      rw [decrement_timers_delay _ _ (by norm_num)]
      simp
    have hsz : (Timers.decrement_timers
        { delay_timer := 0, sound_timer := 0, rounding_remainder := 1/2 } 0).sound_timer = 0 := by
      rw [decrement_timers_sound _ _ (by norm_num)]
      simp
    rw [decrement_timers_remainder, hdz, hsz]
    norm_num
  · have hfl : ⌊TIMER_DECREMENT_FREQUENCY * 0 + (1/2 : ℚ)⌋ = 0 := by
      rw [Int.floor_eq_iff]
      constructor <;> norm_num [TIMER_DECREMENT_FREQUENCY]
    rw [Int.fract, hfl]
    norm_num [TIMER_DECREMENT_FREQUENCY]

/-- C7: after any call to `decrement_timers`, if both the delay timer and the
sound timer are zero then the fractional carry accumulator is zero. -/
theorem remainder_reset_when_zero (t : Timers) (delta : ℚ)
    (hdz : (t.decrement_timers delta).delay_timer = 0)
    (hsz : (t.decrement_timers delta).sound_timer = 0) :
    (t.decrement_timers delta).rounding_remainder = 0 := by
  rw [decrement_timers_remainder, hdz, hsz]
  norm_num

/-- Witness for C7 on a zeroed timer pair. -/
theorem remainder_reset_when_zero_witness :
    (Timers.decrement_timers
        { delay_timer := 0, sound_timer := 0, rounding_remainder := 0 } 0).delay_timer = 0 ∧
    (Timers.decrement_timers
        { delay_timer := 0, sound_timer := 0, rounding_remainder := 0 } 0).sound_timer = 0 ∧
    (Timers.decrement_timers
        { delay_timer := 0, sound_timer := 0, rounding_remainder := 0 } 0).rounding_remainder = 0 :=
  ⟨by simp [Timers.decrement_timers, floorToU8],
    by simp [Timers.decrement_timers, floorToU8],
    remainder_reset_when_zero { delay_timer := 0, sound_timer := 0, rounding_remainder := 0 } 0
      (by simp [Timers.decrement_timers, floorToU8])
      (by simp [Timers.decrement_timers, floorToU8])⟩

/-- C10: at delay 255, sound 255, no carry and zero elapsed time, the `u8` sum
computed by the zero check of `decrement_timers` is 510, which exceeds 255:
the `u8` addition overflows (a checked build panics; a release build wraps). -/
theorem decrement_timers_zero_check_overflows :
    255 < Timers.zeroCheckSum
      { delay_timer := 255, sound_timer := 255, rounding_remainder := 0 } 0 := by
  norm_num [Timers.zeroCheckSum, floorToU8, TIMER_DECREMENT_FREQUENCY]


/-- C6 (amended): splitting an elapsed interval across two calls to
`decrement_timers` leaves the delay and sound timers exactly as a single call
over the whole interval — the amount subtracted is proportional to total
elapsed time carried through the fractional accumulator, not a fixed per-call
amount — provided the first call does not wrap its `u8` zero check: the
timers must not land on a sum of exactly 256 after the first call (in
particular, any starting pair summing to at most 255 qualifies). -/
theorem decrement_timers_time_additive (t : Timers) (d1 d2 : ℚ)
    (hd : t.delay_timer ≤ 255) (hs : t.sound_timer ≤ 255)
    (h1 : 0 ≤ d1) (h2 : 0 ≤ d2) (hr : 0 ≤ t.rounding_remainder)
    (hns : t.delay_timer + t.sound_timer ≤ 255 ∨
      (t.decrement_timers d1).delay_timer + (t.decrement_timers d1).sound_timer ≠ 256) :
    ((t.decrement_timers d1).decrement_timers d2).delay_timer =
        (t.decrement_timers (d1 + d2)).delay_timer ∧
    ((t.decrement_timers d1).decrement_timers d2).sound_timer =
        (t.decrement_timers (d1 + d2)).sound_timer := by
  set x : ℚ := TIMER_DECREMENT_FREQUENCY * d1 + t.rounding_remainder with hx
  have hx0 : 0 ≤ x := by
    rw [hx, TIMER_DECREMENT_FREQUENCY]
    have := mul_nonneg (by norm_num : (0:ℚ) ≤ 60) h1
    linarith
  have hfl0 : 0 ≤ ⌊x⌋ := Int.floor_nonneg.mpr hx0
  have hd1 : (t.decrement_timers d1).delay_timer = t.delay_timer - Int.toNat ⌊x⌋ :=
    decrement_timers_delay t d1 hd
  have hs1 : (t.decrement_timers d1).sound_timer = t.sound_timer - Int.toNat ⌊x⌋ :=
    decrement_timers_sound t d1 hs
  have hcomb : TIMER_DECREMENT_FREQUENCY * (d1 + d2) + t.rounding_remainder
      = x + TIMER_DECREMENT_FREQUENCY * d2 := by
    rw [hx]
    ring
  have hd2nn : (0:ℚ) ≤ TIMER_DECREMENT_FREQUENCY * d2 := by
    rw [TIMER_DECREMENT_FREQUENCY]
    exact mul_nonneg (by norm_num) h2
  have hflmono : ⌊x⌋ ≤ ⌊x + TIMER_DECREMENT_FREQUENCY * d2⌋ := by
    apply Int.floor_le_floor
    linarith
  have hcd : (t.decrement_timers (d1 + d2)).delay_timer
      = t.delay_timer - Int.toNat ⌊x + TIMER_DECREMENT_FREQUENCY * d2⌋ := by
    rw [decrement_timers_delay t _ hd, hcomb]
  have hcs : (t.decrement_timers (d1 + d2)).sound_timer
      = t.sound_timer - Int.toNat ⌊x + TIMER_DECREMENT_FREQUENCY * d2⌋ := by
    rw [decrement_timers_sound t _ hs, hcomb]
  have hd1le : (t.decrement_timers d1).delay_timer ≤ 255 := by
    rw [hd1]
    omega
  have hs1le : (t.decrement_timers d1).sound_timer ≤ 255 := by
    rw [hs1]
    omega
  have hd2e : ((t.decrement_timers d1).decrement_timers d2).delay_timer
      = (t.decrement_timers d1).delay_timer -
        Int.toNat ⌊TIMER_DECREMENT_FREQUENCY * d2 +
          (t.decrement_timers d1).rounding_remainder⌋ :=
    decrement_timers_delay _ d2 hd1le
  have hs2e : ((t.decrement_timers d1).decrement_timers d2).sound_timer
      = (t.decrement_timers d1).sound_timer -
        Int.toNat ⌊TIMER_DECREMENT_FREQUENCY * d2 +
          (t.decrement_timers d1).rounding_remainder⌋ :=
    decrement_timers_sound _ d2 hs1le
  by_cases hz : ((t.decrement_timers d1).delay_timer +
      (t.decrement_timers d1).sound_timer) % 256 = 0
  · have hzd : (t.decrement_timers d1).delay_timer = 0 := by
      rcases hns with hle | hne
      · rw [hd1, hs1] at hz
        rw [hd1]
        omega
      · rw [hd1, hs1] at hz hne
        rw [hd1]
        omega
    have hzs : (t.decrement_timers d1).sound_timer = 0 := by
      rcases hns with hle | hne
      · rw [hd1, hs1] at hz
        rw [hs1]
        omega
      · rw [hd1, hs1] at hz hne
        rw [hs1]
        omega
    rw [hd1] at hzd
    rw [hs1] at hzs
    constructor
    · rw [hd2e, hd1, hcd]
      omega
    · rw [hs2e, hs1, hcs]
      omega
  · have hrem : (t.decrement_timers d1).rounding_remainder = Int.fract x := by
      rw [decrement_timers_remainder, if_neg hz, hx, Int.fract]
    have hfr : TIMER_DECREMENT_FREQUENCY * d2 + Int.fract x
        = (x + TIMER_DECREMENT_FREQUENCY * d2) - (⌊x⌋ : ℚ) := by
      rw [Int.fract]
      ring
    have hfloor2 : ⌊TIMER_DECREMENT_FREQUENCY * d2 + Int.fract x⌋
        = ⌊x + TIMER_DECREMENT_FREQUENCY * d2⌋ - ⌊x⌋ := by
      rw [hfr, Int.floor_sub_int]
    constructor
    · rw [hd2e, hrem, hfloor2, hd1, hcd]
      omega
    · rw [hs2e, hrem, hfloor2, hs1, hcs]
      omega

/-- Witness for the amended C6: delay 90, sound 30, one second twice versus
two seconds at once. -/
theorem decrement_timers_time_additive_witness :
    ({ delay_timer := 90, sound_timer := 30, rounding_remainder := 0 } : Timers).delay_timer ≤ 255 ∧
    ({ delay_timer := 90, sound_timer := 30, rounding_remainder := 0 } : Timers).delay_timer +
        ({ delay_timer := 90, sound_timer := 30, rounding_remainder := 0 } : Timers).sound_timer ≤ 255 ∧
    (((Timers.decrement_timers
          { delay_timer := 90, sound_timer := 30, rounding_remainder := 0 } 1).decrement_timers 1).delay_timer =
        (Timers.decrement_timers
          { delay_timer := 90, sound_timer := 30, rounding_remainder := 0 } (1 + 1)).delay_timer ∧
      ((Timers.decrement_timers
          { delay_timer := 90, sound_timer := 30, rounding_remainder := 0 } 1).decrement_timers 1).sound_timer =
        (Timers.decrement_timers
          { delay_timer := 90, sound_timer := 30, rounding_remainder := 0 } (1 + 1)).sound_timer) :=
  ⟨by decide, by decide,
    decrement_timers_time_additive
      { delay_timer := 90, sound_timer := 30, rounding_remainder := 0 } 1 1
      (by decide) (by decide) zero_le_one zero_le_one (le_refl 0) (Or.inl (by decide))⟩

/-- C6 counterexample: from delay 255, sound 1 and no carry, two calls of
0.015 s each leave the delay timer at 255, while one call of 0.03 s leaves it
at 254 — the first split call wraps the `u8` timer sum 255 + 1 to 0 and
spuriously clears the fractional carry. -/
theorem decrement_timers_split_cex :
    ((Timers.decrement_timers
          { delay_timer := 255, sound_timer := 1, rounding_remainder := 0 }
          (3/200)).decrement_timers (3/200)).delay_timer ≠
      (Timers.decrement_timers
        { delay_timer := 255, sound_timer := 1, rounding_remainder := 0 }
        (3/200 + 3/200)).delay_timer := by
  have h255 : ({ delay_timer := 255, sound_timer := 1, rounding_remainder := 0 } : Timers).delay_timer ≤ 255 := by
    norm_num
  have h1s : ({ delay_timer := 255, sound_timer := 1, rounding_remainder := 0 } : Timers).sound_timer ≤ 255 := by
    norm_num
  have e1 := decrement_timers_delay
    { delay_timer := 255, sound_timer := 1, rounding_remainder := 0 } (3/200) h255
  have e2 := decrement_timers_sound
    { delay_timer := 255, sound_timer := 1, rounding_remainder := 0 } (3/200) h1s
  have hfl : ⌊TIMER_DECREMENT_FREQUENCY * (3/200 : ℚ) +
      ({ delay_timer := 255, sound_timer := 1, rounding_remainder := 0 } : Timers).rounding_remainder⌋ = 0 := by
    rw [Int.floor_eq_iff]
    norm_num [TIMER_DECREMENT_FREQUENCY]
  rw [hfl] at e1 e2
  norm_num at e1 e2
  have hrm : (Timers.decrement_timers
      { delay_timer := 255, sound_timer := 1, rounding_remainder := 0 } (3/200)).rounding_remainder = 0 := by
    rw [decrement_timers_remainder, e1, e2]
    norm_num
  have e3 := decrement_timers_delay (Timers.decrement_timers
    { delay_timer := 255, sound_timer := 1, rounding_remainder := 0 } (3/200)) (3/200) (by omega)
  rw [hrm, e1] at e3
  have hfl2 : ⌊TIMER_DECREMENT_FREQUENCY * (3/200 : ℚ) + 0⌋ = 0 := by
    rw [Int.floor_eq_iff]
    norm_num [TIMER_DECREMENT_FREQUENCY]
  rw [hfl2] at e3
  norm_num at e3
  have e4 := decrement_timers_delay
    { delay_timer := 255, sound_timer := 1, rounding_remainder := 0 } (3/200 + 3/200) h255
  have hfl3 : ⌊TIMER_DECREMENT_FREQUENCY * ((3/200 : ℚ) + 3/200) +
      ({ delay_timer := 255, sound_timer := 1, rounding_remainder := 0 } : Timers).rounding_remainder⌋ = 1 := by
    rw [Int.floor_eq_iff]
    norm_num [TIMER_DECREMENT_FREQUENCY]
  rw [hfl3] at e4
  norm_num at e4
  have hq : (3/200 + 3/200 : ℚ) = 3/100 := by norm_num
  rw [e3, hq, e4]
  omega

end Chip8
